import Mathlib

/-!
Shallow embedding of the DeFi portfolio tracker's aggregation-and-resilience
layer (`src/utils/api.ts`, `src/utils/web3.ts`, `src/app/page.tsx`).

Modelling conventions:
* JavaScript numbers and decimal strings that denote quantities are modelled as
  exact rationals (`ℚ`); timestamps and durations are natural numbers (ms).
* Stateful code is modelled by explicit state passing: the module-level price
  cache and `lastRequestTime` of `api.ts` become an `ApiState` value threaded
  through `fetchTokenPricesM`.
* Fallible external calls (HTTP, on-chain contract reads) are modelled as
  oracle inputs of type `Except`, so that every failure pattern of the network
  is a concrete input to the embedded function.
* A JavaScript `Map` is modelled as an insertion-ordered association list
  (`mapGet` / `mapSet` below), matching `Map.get` / `Map.set` semantics.
-/

/-- One entry of the CoinGecko simple-price response
(`TokenMarketData[key]` in `api.ts`). -/
structure PriceEntry where
  usd : ℚ
  usd_24h_change : Option ℚ
  usd_market_cap : Option ℚ
  usd_24h_vol : Option ℚ
deriving DecidableEq, Repr

/-- Model of `TokenMarketData` of `api.ts`: a JS object mapping asset id to its price
entry, modelled as an association list. -/
def TokenMarketData := List (String × PriceEntry)

instance : DecidableEq TokenMarketData := by
  unfold TokenMarketData; infer_instance

/-- Model of `Map.get` of a JS `Map` (first binding of the key, if any). -/
def mapGet {α : Type} : List (String × α) → String → Option α
  | [], _ => none
  | (k', v) :: rest, k => if k' = k then some v else mapGet rest k

/-- Model of `Map.set` of a JS `Map`: replaces the binding in place if the key is
present (keeping insertion order), otherwise appends a new binding. -/
def mapSet {α : Type} : List (String × α) → String → α → List (String × α)
  | [], k, v => [(k, v)]
  | (k', v') :: rest, k, v =>
      if k' = k then (k, v) :: rest else (k', v') :: mapSet rest k v

/-- A stored cache entry: `{ data, timestamp }` (`api.ts` line 54). -/
structure CacheEntry where
  data : TokenMarketData
  timestamp : ℕ
deriving DecidableEq

/-- The price cache (`const cache = new Map(...)` in `api.ts`). -/
def PriceCache := List (String × CacheEntry)

instance : DecidableEq PriceCache := by
  unfold PriceCache; infer_instance

/-- Constant `CACHE_DURATION = 5 * 60 * 1000` ms (`api.ts` line 55). -/
def CACHE_DURATION : ℕ := 5 * 60 * 1000

/-- Constant `MIN_REQUEST_INTERVAL = 1000` ms (`api.ts` line 59). -/
def MIN_REQUEST_INTERVAL : ℕ := 1000

/-- JS `Array.prototype.join(',')` on a list of strings. -/
def joinComma : List String → String
  | [] => ""
  | [x] => x
  | x :: y :: ys => x ++ "," ++ joinComma (y :: ys)

/-- Variant of `joinComma` at the level of character lists (specification helper used
to reason about cache-key injectivity). -/
def charJoin : List (List Char) → List Char
  | [] => []
  | [x] => x
  | x :: y :: ys => x ++ ',' :: charJoin (y :: ys)

/-- The cache key computed by `fetchTokenPrices`
(`const cacheKey = ` followed by the template `prices_` + `tokenIds.join(',')`,
`api.ts` line 67). No sorting is applied to `tokenIds`. -/
def priceCacheKey (tokenIds : List String) : String :=
  "prices_" ++ joinComma tokenIds

/-- The read side of the cache as performed by `fetchTokenPrices`
(`api.ts` lines 68-73): look the key up, and treat the entry as a hit only
while `now - timestamp < CACHE_DURATION`; the expiry check happens at read
time and an expired entry is not removed. -/
def cacheGet (c : PriceCache) (key : String) (now : ℕ) : Option TokenMarketData :=
  match mapGet c key with
  | some entry => if now - entry.timestamp < CACHE_DURATION then some entry.data else none
  | none => none

/-- The write side of the cache (`cache.set(cacheKey, { data, timestamp })`,
`api.ts` line 96). -/
def cachePut (c : PriceCache) (key : String) (data : TokenMarketData) (t : ℕ) : PriceCache :=
  mapSet c key ⟨data, t⟩

/-- Model of `clearCache` (`api.ts` lines 268-271). -/
def clearCache (_c : PriceCache) : PriceCache := []

/-- Model of `getCacheStats` (`api.ts` lines 273-278). -/
def getCacheStats (c : PriceCache) : ℕ × List String :=
  (c.length, c.map (·.1))

/-- The kinds of failure of the price request named by the spec:
network error, timeout, parse error. All are caught by the same `catch`. -/
inductive NetError where
  | network
  | timeout
  | parse
deriving DecidableEq, Repr

/-- The module-level mutable state of `api.ts`: the price cache and
`lastRequestTime`. -/
structure ApiState where
  cache : PriceCache
  lastRequestTime : ℕ
deriving DecidableEq

/-- Result of one `fetchTokenPrices` call: the returned price table, the
module state afterwards, and whether a network request was attempted
(i.e. the code reached the `axios.get` call). -/
structure FetchResult where
  result : TokenMarketData
  state : ApiState
  networkAttempted : Bool

/-- The hard-coded fallback price table returned by `fetchTokenPrices` when
the request fails (`api.ts` lines 103-111). -/
def fallbackPrices : TokenMarketData :=
  [ ("ethereum", ⟨3200, some 0, none, none⟩),
    ("uniswap", ⟨24.2, some 0, none, none⟩),
    ("aave", ⟨85.5, some 0, none, none⟩),
    ("compound-governance-token", ⟨45.2, some 0, none, none⟩),
    ("dai", ⟨1, some 0, none, none⟩),
    ("tether", ⟨1, some 0, none, none⟩),
    ("weth", ⟨3200, some 0, none, none⟩) ]

/-- Model of `fetchTokenPrices` (`api.ts` lines 64-115) as a state transformer.
`now` is `Date.now()` at call time and `net` is the outcome of the
`axios.get` request. On a cache hit the cached data is returned with no
network attempt; on a miss the rate-limit delay is simulated (the request
goes out at `t1`, and `lastRequestTime` is set to `t1` before the request,
line 80); a successful response is stored in the cache, a failed one
returns `fallbackPrices` and leaves the cache untouched. The network
round-trip duration is abstracted away: the response timestamp stored in
the cache is the request time `t1`. -/
def fetchTokenPricesM (st : ApiState) (now : ℕ) (tokenIds : List String)
    (net : Except NetError TokenMarketData) : FetchResult :=
  let key := priceCacheKey tokenIds
  match cacheGet st.cache key now with
  | some data => ⟨data, st, false⟩
  | none =>
    let t1 := if now - st.lastRequestTime < MIN_REQUEST_INTERVAL
              then st.lastRequestTime + MIN_REQUEST_INTERVAL else now
    match net with
    | .ok data => ⟨data, ⟨cachePut st.cache key data t1, t1⟩, true⟩
    | .error _ => ⟨fallbackPrices, ⟨st.cache, t1⟩, true⟩

/-- The state of the rate-limit section of `fetchTokenPrices`
(`api.ts` lines 76-80) as seen by one caller arriving at instant `now` with
the module variable `lastRequestTime = last`. Returns
`(resolveTime, lastSeenByNextCaller)`: a caller whose check
`now - lastRequestTime < MIN_REQUEST_INTERVAL` passes proceeds immediately
and synchronously sets `lastRequestTime := now` (visible to the next caller);
a caller that must wait suspends in `delay` until
`lastRequestTime + MIN_REQUEST_INTERVAL` and does not update
`lastRequestTime` until its `await` resolves, so the next concurrent caller
still reads the old value. -/
def rateLimitResolve (last now : ℕ) : ℕ × ℕ :=
  if now - last < MIN_REQUEST_INTERVAL then (last + MIN_REQUEST_INTERVAL, last)
  else (now, now)

/-- Resolution times of `n` callers that all enter the rate-limit section of
`fetchTokenPrices` at the same instant `now` (JS event loop: the synchronous
prefixes run in arrival order, and `lastRequestTime` is updated by a waiting
caller only after its `delay` resolves). -/
def concurrentResolveTimes (last now : ℕ) : ℕ → List ℕ
  | 0 => []
  | n + 1 =>
    let r := rateLimitResolve last now
    r.1 :: concurrentResolveTimes r.2 now n

/-- Model of `ethers.utils.formatUnits` for a non-negative integer `value` and a
number of `decimals`: the exact decimal string for `value / 10 ^ decimals`,
with trailing zeros of the fraction trimmed and at least one fractional
digit kept. -/
def formatUnits (value : ℕ) (decimals : ℕ) : String :=
  let base := 10 ^ decimals
  let whole := value / base
  let frac := value % base
  let fracDigits := Nat.toDigits 10 frac
  let padded := List.replicate (decimals - fracDigits.length) '0' ++ fracDigits
  let trimmed := (padded.reverse.dropWhile (· = '0')).reverse
  let fracStr := if trimmed.isEmpty then "0" else String.mk trimmed
  toString whole ++ "." ++ fracStr

/-- Shape of `DefiPosition` as it flows from `web3.ts` into `page.tsx` (the page-level
interface has the same first seven fields; `poolAddress` and
`contractAddress` are the optional extras of `web3.ts`). Decimal quantities
are rationals. -/
structure DefiPosition where
  protocol : String
  type : String
  token : String
  amount : String
  value : ℚ
  apy : Option ℚ
  yield : Option ℚ
  poolAddress : Option String
  contractAddress : Option String
deriving DecidableEq, Repr

/-- Result shape of `getTokenBalance` (`web3.ts` line 101): the decimal
balance string is modelled by the rational it denotes. -/
structure TokenBalanceResult where
  balance : ℚ
  symbol : String
  decimals : ℕ
deriving DecidableEq, Repr

/-- Value `{ balance: '0', symbol: '', decimals: 18 }`, the degraded result of
`getTokenBalance` (`web3.ts` lines 104, 111, 116, 127, 143). -/
def zeroBalanceResult : TokenBalanceResult := ⟨0, "", 18⟩

/-- The external collaborators of `getTokenBalance`: the outcome of each
contract sub-query (`balanceOf`, `decimals`, `symbol`). -/
structure BalanceOracle where
  balanceOf : Except Unit ℕ
  decimals : Except Unit ℕ
  symbol : Except Unit String

/-- Model of `getTokenBalance` (`web3.ts` lines 98-145). `provider` is whether
`getProvider()` returned a provider; `isAddress` is the well-formedness
check `ethers.utils.isAddress` (an external library predicate, kept
abstract). The second component records whether any contract call was
attempted (the code reached the `balanceOf` query). Each of the
`decimals`/`symbol` sub-queries is independently defaulted on failure,
and a thrown `balanceOf` is caught by the outer catch. -/
def getTokenBalance (provider : Bool) (isAddress : String → Bool)
    (tokenAddress walletAddress : String) (o : BalanceOracle) :
    TokenBalanceResult × Bool :=
  if provider = false then (zeroBalanceResult, false)
  else if isAddress tokenAddress = false then (zeroBalanceResult, false)
  else if isAddress walletAddress = false then (zeroBalanceResult, false)
  else
    match o.balanceOf with
    | .error _ => (zeroBalanceResult, true)
    | .ok bal =>
      if bal = 0 then (zeroBalanceResult, true)
      else
        let d := match o.decimals with | .ok d => d | .error _ => 18
        let s := match o.symbol with | .ok s => s | .error _ => "UNKNOWN"
        (⟨(bal : ℚ) / 10 ^ d, s, d⟩, true)

/-- The static example position pushed by `getUniswapPositions`, both inside
its NFT loop and as its catch-block fallback (`web3.ts` lines 173-181 and
192-202; the two object literals are identical). -/
def uniswapExamplePosition : DefiPosition :=
  ⟨"Uniswap V3", "LP Position", "ETH/USDC", "1.2 ETH + 3840 USDC", 7680,
    some 12.5, none, some "0x8ad599c3A0ff1De082011EFDDc58f1908eb6e6D8", none⟩

/-- The static example position list returned by `getUniswapPositions` when
its `balanceOf` query fails (`web3.ts` lines 190-203). -/
def uniswapMockPositions : List DefiPosition := [uniswapExamplePosition]

/-- External collaborators of `getUniswapPositions`: provider presence and
the outcome of each on-chain query. -/
structure UniswapOracle where
  provider : Bool
  balanceOf : Except Unit ℕ
  tokenOfOwnerByIndex : ℕ → Except Unit ℕ
  positionsQuery : ℕ → Except Unit Unit

/-- Model of `getUniswapPositions` (`web3.ts` lines 148-208). With no provider it
returns `[]`. If the NFT-count query `balanceOf` throws, the inner catch
returns the static example list. Otherwise the loop visits indices
`0 .. min(balance, 10)`; a failing `tokenOfOwnerByIndex` or `positions`
detail query is caught per-iteration and skipped (`web3.ts` lines 182-184),
so partial failures shrink the result rather than triggering the fallback.
(The outer catch at lines 204-207 guards only the `ethers.Contract`
construction, which cannot fail in this model.) -/
def getUniswapPositions (o : UniswapOracle) : List DefiPosition :=
  if o.provider = false then []
  else
    match o.balanceOf with
    | .error _ => uniswapMockPositions
    | .ok balance =>
      (List.range (min balance 10)).foldl (fun acc i =>
        match o.tokenOfOwnerByIndex i with
        | .error _ => acc
        | .ok tokenId =>
          match o.positionsQuery tokenId with
          | .error _ => acc
          | .ok _ => acc ++ [uniswapExamplePosition]) []

/-- The Aave reserve assets iterated by `getAavePositions`
(`web3.ts` lines 225-229): `(address, symbol)`. -/
def aaveAssets : List (String × String) :=
  [ ("0xC02aaA39b223FE8D0A0e5C4F27eAD9083C756Cc2", "WETH"),
    ("0xA0b86a33E6441b8C4C4C4C4C4C4C4C4C4C4C4C4C", "USDC"),
    ("0x6B175474E89094C44Da98b954EedeAC495271d0F", "DAI") ]

/-- The static example position list of `getAavePositions`
(`web3.ts` lines 264-275). -/
def aaveMockPositions : List DefiPosition :=
  [⟨"Aave", "Supply", "USDC", "2000 USDC", 2000, some 3.2, some 64, none,
     some "0xBcca60bB61934080951369a648Fb03DF4F96263C"⟩]

/-- External collaborators of `getAavePositions`: provider presence and the
outcome of `getUserReserveData` per asset address (only `userData[0]`, the
aToken balance, is used). -/
structure AaveOracle where
  provider : Bool
  getUserReserveData : String → Except Unit ℕ

/-- Model of `getAavePositions` (`web3.ts` lines 211-281). With no provider it
returns `[]`. A failing per-asset `getUserReserveData` query is caught
inside the loop and skipped (`web3.ts` lines 255-257); the catch returning
the static example list (lines 262-275) guards only the code around the
loop, which cannot fail in this model, so per-asset failures yield a
(possibly empty) real list. -/
def getAavePositions (o : AaveOracle) : List DefiPosition :=
  if o.provider = false then []
  else
    aaveAssets.foldl (fun acc asset =>
      match o.getUserReserveData asset.1 with
      | .error _ => acc
      | .ok raw =>
        if 0 < raw then
          let bal : ℚ := (raw : ℚ) / 10 ^ 18
          if 1 / 1000 < bal then
            acc ++ [⟨"Aave", "Supply", asset.2,
                      formatUnits raw 18 ++ " " ++ asset.2,
                      bal * 2000, some 3.2, some (bal * 64), none,
                      some asset.1⟩]
          else acc
        else acc) []

/-- The cTokens iterated by `getCompoundPositions`
(`web3.ts` lines 290-294): `(address, symbol, underlying)`. -/
def compoundTokens : List (String × String × String) :=
  [ ("0x4Ddc2D193948926D02f9B1fE9e1daa0718270ED5", "cETH", "ETH"),
    ("0x39AA39c021dfbaE8faC545936693aC917d5E7563", "cUSDC", "USDC"),
    ("0x5d3a536E4D6DbD6114cc1Ead35777bAB948E3643", "cDAI", "DAI") ]

/-- The static example position list of `getCompoundPositions`
(`web3.ts` lines 330-343). -/
def compoundMockPositions : List DefiPosition :=
  [⟨"Compound", "Supply", "ETH", "0.8 ETH", 2560, some 2.8, some 71.68, none,
     some "0x4Ddc2D193948926D02f9B1fE9e1daa0718270ED5"⟩]

/-- External collaborators of `getCompoundPositions`: provider presence and,
per cToken address, the joint outcome of the `balanceOf` and
`exchangeRateStored` queries (they run under one `Promise.all`, so either
failing fails both). -/
structure CompoundOracle where
  provider : Bool
  cTokenData : String → Except Unit (ℕ × ℕ)

/-- Model of `getCompoundPositions` (`web3.ts` lines 284-350). With no provider it
returns `[]`. A failing per-cToken query pair is caught inside the loop and
skipped (lines 324-326). `balance.mul(exchangeRate).div(parseEther('1'))` is
BigNumber integer arithmetic, hence natural division by `10 ^ 18`. If the
collected list is empty — whether from failures or genuinely empty
positions — the static example list is returned (lines 330-343). -/
def getCompoundPositions (o : CompoundOracle) : List DefiPosition :=
  if o.provider = false then []
  else
    let positions := compoundTokens.foldl (fun acc ct =>
      match o.cTokenData ct.1 with
      | .error _ => acc
      | .ok br =>
        if 0 < br.1 then
          let underlyingAmount : ℕ := br.1 * br.2 / 10 ^ 18
          let readable : ℚ := (underlyingAmount : ℚ) / 10 ^ 18
          if 1 / 1000 < readable then
            acc ++ [⟨"Compound", "Supply", ct.2.2,
                      formatUnits underlyingAmount 18 ++ " " ++ ct.2.2,
                      readable * 3200, some 2.8, some (readable * 71.68),
                      none, some ct.1⟩]
          else acc
        else acc) []
    if positions = [] then compoundMockPositions else positions

/-- The page-level `TokenBalance` row (`page.tsx` lines 20-25); the decimal
balance string is modelled by the rational it denotes. -/
structure TokenRow where
  symbol : String
  balance : ℚ
  price : ℚ
  value : ℚ
deriving DecidableEq, Repr

/-- Model of `PortfolioData` (`page.tsx` lines 37-42). -/
structure PortfolioData where
  totalValue : ℚ
  tokens : List TokenRow
  defiPositions : List DefiPosition
  totalYield : ℚ
deriving DecidableEq, Repr

/-- Model of `fetchMockData` (`page.tsx` lines 56-94): the static demonstration
snapshot substituted when real aggregation fails. -/
def fetchMockData : PortfolioData :=
  { totalValue := 15420.5
    tokens := [⟨"ETH", 2.5, 3200, 8000⟩, ⟨"USDC", 5000, 1, 5000⟩,
               ⟨"UNI", 100, 24.2, 2420⟩]
    defiPositions :=
      [ ⟨"Uniswap", "LP Position", "ETH/USDC", "1.2 ETH + 3840 USDC", 7680,
          some 12.5, none, none, none⟩,
        ⟨"Aave", "Supply", "USDC", "2000 USDC", 2000, some 3.2, some 64,
          none, none⟩,
        ⟨"Compound", "Supply", "ETH", "0.8 ETH", 2560, some 2.8, some 71.68,
          none, none⟩ ]
    totalYield := 135.68 }

/-- The fixed token list scanned by `fetchRealData`
(`page.tsx` lines 104-111): `(address, symbol)`. -/
def commonTokens : List (String × String) :=
  [ ("0x1f9840a85d5aF5bf1D1762F925BDADdC4201F984", "UNI"),
    ("0x7Fc66500c84A76Ad7e9c93437bFc5Ac33E2DDaE9", "AAVE"),
    ("0xc00e94Cb662C3520282E6f5717214004A7f26888", "COMP"),
    ("0x6B175474E89094C44Da98b954EedeAC495271d0F", "DAI"),
    ("0xdAC17F958D2ee523a2206206994597C13D831ec7", "USDT"),
    ("0xC02aaA39b223FE8D0A0e5C4F27eAD9083C756Cc2", "WETH") ]

/-- External collaborators of `fetchRealData`: the outcome of each awaited
sub-call. `prices`, `ethBalance` and the three position readers propagate a
rejection to `fetchRealData`'s catch; a per-token `tokenBalance` rejection
is swallowed by the inner try of the token loop. -/
structure AggOracle where
  prices : Except NetError TokenMarketData
  ethBalance : Except Unit ℚ
  tokenBalance : String → Except Unit TokenBalanceResult
  uniswap : Except Unit (List DefiPosition)
  aave : Except Unit (List DefiPosition)
  compound : Except Unit (List DefiPosition)

/-- The token-row construction of `fetchRealData`
(`page.tsx` lines 102-137): the native ETH row (with
`prices.ethereum?.usd || 3200`, where JS `||` replaces both a missing and a
zero price by 3200) followed by one row per fixed-list token whose lookup
succeeded with a positive balance and non-empty symbol; the row's price is
`prices[symbol.toLowerCase()]?.usd || 0`. -/
def buildTokenRows (prices : TokenMarketData) (ethBalance : ℚ)
    (tokenBalance : String → Except Unit TokenBalanceResult) : List TokenRow :=
  let ethPrice : ℚ :=
    match (mapGet prices "ethereum").map (·.usd) with
    | some p => if p = 0 then 3200 else p
    | none => 3200
  let initial : List TokenRow :=
    if 0 < ethBalance
    then [⟨"ETH", ethBalance, ethPrice, ethBalance * ethPrice⟩] else []
  commonTokens.foldl (fun acc t =>
    match tokenBalance t.1 with
    | .error _ => acc
    | .ok bd =>
      if 0 < bd.balance ∧ bd.symbol ≠ "" then
        let price := ((mapGet prices t.2.toLower).map (·.usd)).getD 0
        acc ++ [⟨bd.symbol, bd.balance, price, bd.balance * price⟩]
      else acc) initial

/-- The merge step of `fetchRealData` (`page.tsx` lines 143-152):
concatenate the position lists in reader order and fold the totals exactly
as the two `reduce` calls do. -/
def mergeSnapshot (tokens : List TokenRow) (uni aavePos compPos : List DefiPosition) :
    PortfolioData :=
  let allPositions := uni ++ aavePos ++ compPos
  { totalValue := tokens.foldl (fun s t => s + t.value) 0
        + allPositions.foldl (fun s p => s + p.value) 0
    tokens := tokens
    defiPositions := allPositions
    totalYield := allPositions.foldl (fun s p => s + p.yield.getD 0) 0 }

/-- Model of `fetchRealData` (`page.tsx` lines 96-159): if any awaited sub-call other
than a per-token balance lookup rejects, the catch reports failure and
substitutes the static demonstration snapshot `fetchMockData`; otherwise it
returns the fully merged snapshot. The boolean records success
(`toast.success`) versus reported failure (`toast.error`). -/
def fetchRealData (o : AggOracle) : Bool × PortfolioData :=
  match o.prices with
  | .error _ => (false, fetchMockData)
  | .ok prices =>
    match o.ethBalance with
    | .error _ => (false, fetchMockData)
    | .ok ethBal =>
      match o.uniswap with
      | .error _ => (false, fetchMockData)
      | .ok uni =>
        match o.aave with
        | .error _ => (false, fetchMockData)
        | .ok aavePos =>
          match o.compound with
          | .error _ => (false, fetchMockData)
          | .ok compPos =>
            (true, mergeSnapshot (buildTokenRows prices ethBal o.tokenBalance)
                     uni aavePos compPos)

/-! ### Helper lemmas about the JS `Map` model -/

theorem mapGet_mapSet_self {α : Type} (m : List (String × α)) (k : String) (v : α) :
    mapGet (mapSet m k v) k = some v := by
  induction m with
  | nil => simp [mapGet, mapSet]
  | cons hd tl ih =>
    obtain ⟨k', v'⟩ := hd
    by_cases h : k' = k
    · simp [mapSet, h, mapGet]
    · simp [mapSet, h, mapGet, ih]

theorem mapGet_mapSet_ne {α : Type} (m : List (String × α)) (k k' : String) (v : α)
    (h : k' ≠ k) : mapGet (mapSet m k' v) k = mapGet m k := by
  induction m with
  | nil => simp [mapGet, mapSet, h]
  | cons hd tl ih =>
    obtain ⟨a, b⟩ := hd
    by_cases ha : a = k'
    · subst ha
      simp [mapSet, mapGet, h]
    · simp [mapSet, mapGet, ha, ih]

/-- A cache miss at time `n` stays a miss at any later time `n'` (the TTL
check only becomes harder to satisfy). -/
theorem cacheGet_none_mono (c : PriceCache) (k : String) {n n' : ℕ}
    (h : cacheGet c k n = none) (hle : n ≤ n') : cacheGet c k n' = none := by
  unfold cacheGet at h ⊢
  cases hm : mapGet c k with
  | none => simp
  | some e =>
    rw [hm] at h
    by_cases hlt : n - e.timestamp < CACHE_DURATION
    · simp [hlt] at h
    · have hlt' : ¬ n' - e.timestamp < CACHE_DURATION := fun hc =>
        hlt (lt_of_le_of_lt (Nat.sub_le_sub_right hle _) hc)
      simp [hlt']

/-! ### Helper lemmas about folds -/

theorem foldl_add_eq_sum {α : Type} (f : α → ℚ) (l : List α) (a : ℚ) :
    l.foldl (fun s x => s + f x) a = a + (l.map f).sum := by
  induction l generalizing a with
  | nil => simp
  | cons x xs ih => simp [List.foldl_cons, ih, add_assoc]

theorem foldl_length_le {α β : Type} (f : List β → α → List β)
    (hf : ∀ acc x, (f acc x).length ≤ acc.length + 1) (l : List α) (acc : List β) :
    (l.foldl f acc).length ≤ acc.length + l.length := by
  induction l generalizing acc with
  | nil => simp
  | cons x xs ih =>
    have h1 := ih (f acc x)
    have h2 := hf acc x
    simp only [List.foldl_cons, List.length_cons]
    omega

/-! ### Injectivity of the comma-joined cache key on comma-free ids -/

theorem append_comma_inj {u v r s : List Char} (hu : ',' ∉ u) (hv : ',' ∉ v)
    (h : u ++ ',' :: r = v ++ ',' :: s) : u = v ∧ r = s := by
  induction u generalizing v with
  | nil =>
    cases v with
    | nil => simpa using h
    | cons d v' =>
      simp only [List.nil_append, List.cons_append, List.cons.injEq] at h
      obtain ⟨h1, _⟩ := h
      exact absurd (h1 ▸ List.mem_cons_self d v') hv
  | cons c u' ih =>
    cases v with
    | nil =>
      simp only [List.cons_append, List.nil_append, List.cons.injEq] at h
      obtain ⟨h1, _⟩ := h
      exact absurd (h1 ▸ List.mem_cons_self c u') hu
    | cons d v' =>
      simp only [List.cons_append, List.cons.injEq] at h
      obtain ⟨h1, h2⟩ := h
      have hres := ih (fun hm => hu (List.mem_cons_of_mem _ hm))
        (fun hm => hv (List.mem_cons_of_mem _ hm)) h2
      exact ⟨by rw [h1, hres.1], hres.2⟩

theorem charJoin_inj (l₁ : List (List Char)) : ∀ l₂ : List (List Char),
    (∀ x ∈ l₁, ',' ∉ x) → (∀ x ∈ l₂, ',' ∉ x) → l₁.length = l₂.length →
    charJoin l₁ = charJoin l₂ → l₁ = l₂ := by
  induction l₁ with
  | nil =>
    intro l₂ _ _ hlen _
    exact (List.length_eq_zero.mp hlen.symm).symm
  | cons x xs ih =>
    intro l₂ h₁ h₂ hlen hj
    cases l₂ with
    | nil => simp at hlen
    | cons y ys =>
      cases xs with
      | nil =>
        cases ys with
        | nil =>
          simp only [charJoin] at hj
          rw [hj]
        | cons b bs => simp at hlen
      | cons a as =>
        cases ys with
        | nil => simp at hlen
        | cons b bs =>
          simp only [charJoin] at hj
          have hx : ',' ∉ x := h₁ x (List.mem_cons_self _ _)
          have hy : ',' ∉ y := h₂ y (List.mem_cons_self _ _)
          obtain ⟨hxy, hrest⟩ := append_comma_inj hx hy hj
          have htail : (a :: as) = (b :: bs) :=
            ih (b :: bs) (fun z hz => h₁ z (List.mem_cons_of_mem _ hz))
              (fun z hz => h₂ z (List.mem_cons_of_mem _ hz))
              (by simpa using hlen) hrest
          rw [hxy, htail]

theorem joinComma_data (l : List String) :
    (joinComma l).data = charJoin (l.map String.data) := by
  induction l with
  | nil => rfl
  | cons x xs ih =>
    cases xs with
    | nil => rfl
    | cons y ys =>
      show (x ++ "," ++ joinComma (y :: ys)).data = _
      rw [String.data_append, String.data_append, ih]
      simp [charJoin]

theorem string_data_injective : Function.Injective String.data := by
  intro a b h
  cases a
  cases b
  exact congrArg String.mk h

theorem priceCacheKey_inj (l₁ l₂ : List String)
    (h₁ : ∀ s ∈ l₁, ',' ∉ s.data) (h₂ : ∀ s ∈ l₂, ',' ∉ s.data)
    (hlen : l₁.length = l₂.length) (hne : l₁ ≠ l₂) :
    priceCacheKey l₁ ≠ priceCacheKey l₂ := by
  intro hk
  apply hne
  have hdata : ("prices_" ++ joinComma l₁).data = ("prices_" ++ joinComma l₂).data :=
    congrArg String.data hk
  rw [String.data_append, String.data_append] at hdata
  have hjoin : (joinComma l₁).data = (joinComma l₂).data :=
    List.append_cancel_left hdata
  rw [joinComma_data, joinComma_data] at hjoin
  have hmaps : l₁.map String.data = l₂.map String.data :=
    charJoin_inj (l₁.map String.data) (l₂.map String.data)
      (fun x hx => by obtain ⟨s, hs, rfl⟩ := List.mem_map.mp hx; exact h₁ s hs)
      (fun x hx => by obtain ⟨s, hs, rfl⟩ := List.mem_map.mp hx; exact h₂ s hs)
      (by simpa using hlen) hjoin
  exact List.map_injective_iff.mpr string_data_injective hmaps

/-! ### Helper lemmas about the concurrent rate-limiter schedule -/

theorem concurrentResolveTimes_wait {last now : ℕ}
    (h : now - last < MIN_REQUEST_INTERVAL) : ∀ n : ℕ,
    concurrentResolveTimes last now n = List.replicate n (last + MIN_REQUEST_INTERVAL) := by
  intro n
  induction n with
  | zero => rfl
  | succ m ih =>
    simp only [concurrentResolveTimes, rateLimitResolve, if_pos h, List.replicate_succ]
    exact congrArg _ ih

theorem concurrentResolveTimes_nowait {last now : ℕ}
    (h : ¬ now - last < MIN_REQUEST_INTERVAL) (n : ℕ) :
    concurrentResolveTimes last now (n + 1)
      = now :: List.replicate n (now + MIN_REQUEST_INTERVAL) := by
  simp only [concurrentResolveTimes, rateLimitResolve, if_neg h]
  refine congrArg _ ?_
  exact concurrentResolveTimes_wait (by simp [MIN_REQUEST_INTERVAL]) n

theorem concurrentResolveTimes_length (last now n : ℕ) :
    (concurrentResolveTimes last now n).length = n := by
  induction n generalizing last with
  | zero => rfl
  | succ m ih => simp [concurrentResolveTimes, ih]

theorem replicate_getD (x d : ℕ) : ∀ n i : ℕ, i < n →
    (List.replicate n x).getD i d = x := by
  intro n
  induction n with
  | zero => intro i hi; omega
  | succ m ih =>
    intro i hi
    cases i with
    | zero => rfl
    | succ k => simpa [List.replicate_succ] using ih k (by omega)

/-- On a cache miss, `fetchTokenPrices` always reaches the network request,
whatever its outcome. -/
theorem fetchTokenPricesM_networkAttempted_of_miss
    (st : ApiState) (now : ℕ) (tokenIds : List String)
    (net : Except NetError TokenMarketData)
    (h : cacheGet st.cache (priceCacheKey tokenIds) now = none) :
    (fetchTokenPricesM st now tokenIds net).networkAttempted = true := by
  cases net <;> simp [fetchTokenPricesM, h]

/-! ### Claim theorems -/

/-- C2: `fetchTokenPrices` never propagates an error to its caller: for every
asset-id list, whenever the cache misses and the network request fails
(network, timeout, or parse error), it returns the hard-coded fallback price
table, in which `ethereum.usd = 3200` and `uniswap.usd = 24.2`.
(The embedding `fetchTokenPricesM` is a total function, so no error can
propagate by construction; this theorem pins down the returned value.) -/
theorem fetchTokenPrices_failure_returns_fallback
    (st : ApiState) (now : ℕ) (tokenIds : List String) (e : NetError)
    (hmiss : cacheGet st.cache (priceCacheKey tokenIds) now = none) :
    (fetchTokenPricesM st now tokenIds (.error e)).result = fallbackPrices ∧
    (mapGet fallbackPrices "ethereum").map (·.usd) = some 3200 ∧
    (mapGet fallbackPrices "uniswap").map (·.usd) = some 24.2 := by
  refine ⟨?_, rfl, rfl⟩
  simp [fetchTokenPricesM, hmiss]

theorem fetchTokenPrices_failure_returns_fallback_witness :
    (fetchTokenPricesM ⟨[], 0⟩ 0 ["ethereum", "uniswap"] (.error .network)).result
        = fallbackPrices ∧
    (mapGet fallbackPrices "ethereum").map (·.usd) = some 3200 ∧
    (mapGet fallbackPrices "uniswap").map (·.usd) = some 24.2 :=
  fetchTokenPrices_failure_returns_fallback ⟨[], 0⟩ 0 ["ethereum", "uniswap"]
    .network rfl

/-- C10: when the price network request fails, `fetchTokenPrices` leaves the
cache unchanged (the fallback table is never stored), `getCacheStats` reports
the same size as before, and a subsequent call with the same key at any later
time attempts the network again instead of serving the fallback from cache. -/
theorem fetchTokenPrices_failure_cache_unchanged
    (st : ApiState) (now now' : ℕ) (tokenIds : List String) (e : NetError)
    (net' : Except NetError TokenMarketData)
    (hmiss : cacheGet st.cache (priceCacheKey tokenIds) now = none)
    (hle : now ≤ now') :
    (fetchTokenPricesM st now tokenIds (.error e)).state.cache = st.cache ∧
    (fetchTokenPricesM st now tokenIds (.error e)).result = fallbackPrices ∧
    (fetchTokenPricesM st now tokenIds (.error e)).networkAttempted = true ∧
    (getCacheStats (fetchTokenPricesM st now tokenIds (.error e)).state.cache).1
        = (getCacheStats st.cache).1 ∧
    (fetchTokenPricesM (fetchTokenPricesM st now tokenIds (.error e)).state
        now' tokenIds net').networkAttempted = true := by
  have hstate :
      (fetchTokenPricesM st now tokenIds (.error e)).state.cache = st.cache := by
    simp [fetchTokenPricesM, hmiss]
  refine ⟨hstate, ?_, ?_, by rw [hstate], ?_⟩
  · simp [fetchTokenPricesM, hmiss]
  · simp [fetchTokenPricesM, hmiss]
  · exact fetchTokenPricesM_networkAttempted_of_miss _ now' tokenIds net'
      (by rw [hstate]; exact cacheGet_none_mono st.cache _ hmiss hle)

theorem fetchTokenPrices_failure_cache_unchanged_witness :
    (fetchTokenPricesM ⟨[], 0⟩ 0 ["ethereum"] (.error .timeout)).state.cache = [] ∧
    (fetchTokenPricesM ⟨[], 0⟩ 0 ["ethereum"] (.error .timeout)).result = fallbackPrices ∧
    (fetchTokenPricesM ⟨[], 0⟩ 0 ["ethereum"] (.error .timeout)).networkAttempted = true ∧
    (getCacheStats (fetchTokenPricesM ⟨[], 0⟩ 0 ["ethereum"] (.error .timeout)).state.cache).1
        = (getCacheStats ([] : PriceCache)).1 ∧
    (fetchTokenPricesM (fetchTokenPricesM ⟨[], 0⟩ 0 ["ethereum"] (.error .timeout)).state
        2000 ["ethereum"] (.error .parse)).networkAttempted = true :=
  fetchTokenPrices_failure_cache_unchanged ⟨[], 0⟩ 0 2000 ["ethereum"] .timeout
    (.error .parse) rfl (by omega)

/-- C5: a cache read immediately following a write of a key returns exactly
the data written while less than `CACHE_DURATION` has elapsed since the
write; once the TTL has elapsed the read is a miss and a fresh fetch
occurs, yet the expired entry still occupies the cache map; the entry is
removed only by a later overwrite of the same key or by `clearCache`
(a `put` under a different key leaves it in place). -/
theorem priceCache_ttl_semantics
    (c : PriceCache) (tokenIds : List String) (d : TokenMarketData)
    (t now₁ now₂ last : ℕ) (k' : String) (d' : TokenMarketData) (t' : ℕ)
    (net : Except NetError TokenMarketData)
    (h₁ : now₁ - t < CACHE_DURATION)
    (h₂ : CACHE_DURATION ≤ now₂ - t)
    (hk : k' ≠ priceCacheKey tokenIds) :
    cacheGet (cachePut c (priceCacheKey tokenIds) d t) (priceCacheKey tokenIds) now₁
        = some d ∧
    cacheGet (cachePut c (priceCacheKey tokenIds) d t) (priceCacheKey tokenIds) now₂
        = none ∧
    mapGet (cachePut c (priceCacheKey tokenIds) d t) (priceCacheKey tokenIds)
        = some ⟨d, t⟩ ∧
    (fetchTokenPricesM ⟨cachePut c (priceCacheKey tokenIds) d t, last⟩ now₂
        tokenIds net).networkAttempted = true ∧
    mapGet (cachePut (cachePut c (priceCacheKey tokenIds) d t) k' d' t')
        (priceCacheKey tokenIds) = some ⟨d, t⟩ ∧
    mapGet (clearCache (cachePut c (priceCacheKey tokenIds) d t))
        (priceCacheKey tokenIds) = none := by
  have hget : mapGet (cachePut c (priceCacheKey tokenIds) d t) (priceCacheKey tokenIds)
      = some ⟨d, t⟩ := mapGet_mapSet_self c _ _
  have hmiss₂ : cacheGet (cachePut c (priceCacheKey tokenIds) d t)
      (priceCacheKey tokenIds) now₂ = none := by
    simp [cacheGet, hget, Nat.not_lt.mpr h₂]
  refine ⟨?_, hmiss₂, hget, ?_, ?_, rfl⟩
  · simp [cacheGet, hget, h₁]
  · exact fetchTokenPricesM_networkAttempted_of_miss _ now₂ tokenIds net hmiss₂
  · rw [cachePut, mapGet_mapSet_ne _ _ _ _ hk]
    exact hget

theorem priceCache_ttl_semantics_witness :
    cacheGet (cachePut [] (priceCacheKey ["ethereum"]) fallbackPrices 0)
        (priceCacheKey ["ethereum"]) 299999 = some fallbackPrices ∧
    cacheGet (cachePut [] (priceCacheKey ["ethereum"]) fallbackPrices 0)
        (priceCacheKey ["ethereum"]) 300000 = none ∧
    mapGet (cachePut [] (priceCacheKey ["ethereum"]) fallbackPrices 0)
        (priceCacheKey ["ethereum"]) = some ⟨fallbackPrices, 0⟩ ∧
    (fetchTokenPricesM ⟨cachePut [] (priceCacheKey ["ethereum"]) fallbackPrices 0, 0⟩
        300000 ["ethereum"] (.error .network)).networkAttempted = true ∧
    mapGet (cachePut (cachePut [] (priceCacheKey ["ethereum"]) fallbackPrices 0)
        "prices_uniswap" [] 7) (priceCacheKey ["ethereum"]) = some ⟨fallbackPrices, 0⟩ ∧
    mapGet (clearCache (cachePut [] (priceCacheKey ["ethereum"]) fallbackPrices 0))
        (priceCacheKey ["ethereum"]) = none :=
  priceCache_ttl_semantics [] ["ethereum"] fallbackPrices 0 299999 300000 0
    "prices_uniswap" [] 7 (.error .network) (by decide) (by decide) (by decide)

/-- C6: the price-cache key is the literal comma-join of the caller's
asset-id ordering with no sorting applied: two requests listing the same
(comma-free) ids in different orders produce different cache keys, so the
second request does not hit the entry stored by the first. -/
theorem priceCacheKey_order_sensitive
    (l₁ l₂ : List String) (d : TokenMarketData) (t now : ℕ)
    (hperm : l₁.Perm l₂) (hne : l₁ ≠ l₂)
    (hcf : ∀ s ∈ l₁, ',' ∉ s.data) :
    priceCacheKey l₁ ≠ priceCacheKey l₂ ∧
    cacheGet (cachePut [] (priceCacheKey l₁) d t) (priceCacheKey l₂) now = none := by
  have h₂ : ∀ s ∈ l₂, ',' ∉ s.data := fun s hs => hcf s (hperm.mem_iff.mpr hs)
  have hkey := priceCacheKey_inj l₁ l₂ hcf h₂ hperm.length_eq hne
  refine ⟨hkey, ?_⟩
  simp [cacheGet, cachePut, mapSet, mapGet, hkey]

theorem priceCacheKey_order_sensitive_witness :
    priceCacheKey ["ethereum", "uniswap"] ≠ priceCacheKey ["uniswap", "ethereum"] ∧
    cacheGet (cachePut [] (priceCacheKey ["ethereum", "uniswap"]) fallbackPrices 0)
        (priceCacheKey ["uniswap", "ethereum"]) 5 = none :=
  priceCacheKey_order_sensitive ["ethereum", "uniswap"] ["uniswap", "ethereum"]
    fallbackPrices 0 5 (List.Perm.swap "uniswap" "ethereum" [])
    (by decide) (by decide)

/-- C4 counterexample: three callers entering the rate-limit wait at the
same instant (`lastRequestTime = 0`, arrival at 5000 ms) resolve at
`[5000, 6000, 6000]` — the third caller resolves strictly earlier than
`(N-1) * 1000` ms after the first, and callers 2 and 3 proceed in the same
interval window, so the claimed serialization does not hold. -/
theorem rateLimiter_concurrent_claim_counterexample :
    concurrentResolveTimes 0 5000 3 = [5000, 6000, 6000] ∧
    (concurrentResolveTimes 0 5000 3).getD 2 0
        < (concurrentResolveTimes 0 5000 3).getD 0 0 + (3 - 1) * MIN_REQUEST_INTERVAL ∧
    (concurrentResolveTimes 0 5000 3).getD 1 0
        = (concurrentResolveTimes 0 5000 3).getD 2 0 := by
  decide

/-- C4 amended: under `n` concurrent callers entering the rate-limit wait at
the same instant, none is dropped (all `n` waits resolve), but the shared
`lastRequestTime` is read before any waiter updates it, so every caller
resolves within one `MIN_REQUEST_INTERVAL` of every other — there is no
`(N-1) * interval` serialization; at most the first caller is spaced from
the rest, and all waiters proceed together one interval after the shared
timestamp. -/
theorem rateLimiter_concurrent_amended (last now n i j : ℕ)
    (hi : i < n) (hj : j < n) :
    (concurrentResolveTimes last now n).length = n ∧
    (concurrentResolveTimes last now n).getD i 0
        ≤ (concurrentResolveTimes last now n).getD j 0 + MIN_REQUEST_INTERVAL := by
  refine ⟨concurrentResolveTimes_length last now n, ?_⟩
  by_cases h : now - last < MIN_REQUEST_INTERVAL
  · rw [concurrentResolveTimes_wait h]
    rw [replicate_getD _ _ _ i hi, replicate_getD _ _ _ j hj]
    omega
  · cases n with
    | zero => omega
    | succ m =>
      rw [concurrentResolveTimes_nowait h]
      have hval : ∀ p : ℕ, p < m + 1 →
          (now :: List.replicate m (now + MIN_REQUEST_INTERVAL)).getD p 0 = now ∨
          (now :: List.replicate m (now + MIN_REQUEST_INTERVAL)).getD p 0
            = now + MIN_REQUEST_INTERVAL := by
        intro p hp
        cases p with
        | zero => left; rfl
        | succ q =>
          right
          rw [List.getD_cons_succ]
          exact replicate_getD _ _ _ q (by omega)
      rcases hval i hi with hI | hI <;> rcases hval j hj with hJ | hJ <;>
        rw [hI, hJ] <;> omega

theorem rateLimiter_concurrent_amended_witness :
    (concurrentResolveTimes 0 5000 3).length = 3 ∧
    (concurrentResolveTimes 0 5000 3).getD 2 0
        ≤ (concurrentResolveTimes 0 5000 3).getD 0 0 + MIN_REQUEST_INTERVAL :=
  rateLimiter_concurrent_amended 0 5000 3 2 0 (by omega) (by omega)

/-- C7: for every token/wallet address pair where either address fails the
well-formedness check, `getTokenBalance` returns
`{ balance: '0', symbol: '', decimals: 18 }` without attempting any
network/contract call (second component `false`), whatever the provider
state and whatever the contract oracle would answer. The embedding is a
total function, so no exception can escape. -/
theorem getTokenBalance_invalid_address
    (provider : Bool) (isAddress : String → Bool)
    (tokenAddress walletAddress : String) (o : BalanceOracle)
    (h : isAddress tokenAddress = false ∨ isAddress walletAddress = false) :
    getTokenBalance provider isAddress tokenAddress walletAddress o
      = (zeroBalanceResult, false) := by
  rcases h with h | h
  · cases provider <;> simp [getTokenBalance, h]
  · cases provider <;> by_cases ht : isAddress tokenAddress = false <;>
      simp [getTokenBalance, h, ht]

theorem getTokenBalance_invalid_address_witness :
    getTokenBalance true (fun _ => false) "not-an-address" "0xalso-bad"
        ⟨.ok 5, .ok 18, .ok "UNI"⟩ = (zeroBalanceResult, false) :=
  getTokenBalance_invalid_address true (fun _ => false) "not-an-address"
    "0xalso-bad" ⟨.ok 5, .ok 18, .ok "UNI"⟩ (Or.inl rfl)

/-- C9: for every oracle (hence every wallet address and every on-chain
behaviour), `getUniswapPositions` returns at most 10 positions: the NFT loop
is bounded by `min(balance, 10)` and each fallback path returns a list of
length 0 or 1. -/
theorem getUniswapPositions_length_le_ten (o : UniswapOracle) :
    (getUniswapPositions o).length ≤ 10 := by
  unfold getUniswapPositions
  split
  · simp
  · cases hb : o.balanceOf with
    | error e => simp [uniswapMockPositions]
    | ok balance =>
      have hstep : ∀ (acc : List DefiPosition) (i : ℕ),
          ((fun acc i =>
            match o.tokenOfOwnerByIndex i with
            | .error _ => acc
            | .ok tokenId =>
              match o.positionsQuery tokenId with
              | .error _ => acc
              | .ok _ => acc ++ [uniswapExamplePosition]) acc i).length
            ≤ acc.length + 1 := by
        intro acc i
        cases h1 : o.tokenOfOwnerByIndex i with
        | error e => simp [h1]
        | ok tid =>
          cases h2 : o.positionsQuery tid with
          | error e => simp [h1, h2]
          | ok u => simp [h1, h2]
      have hfold := foldl_length_le _ hstep (List.range (min balance 10)) []
      simp only [List.length_nil, List.length_range, Nat.zero_add] at hfold
      exact le_trans hfold (min_le_right _ _)

/-- C3 counterexample: partial failure does not produce the static example
position. For Uniswap, the position-count query succeeds (`balanceOf = 1`)
but the detail query `tokenOfOwnerByIndex` fails; the per-iteration catch
skips it and the reader returns the empty list, not the static example.
For Aave, all three per-asset `getUserReserveData` queries fail; each is
caught inside the loop and the reader returns the empty list, not the
static example. -/
theorem positionReaders_partial_failure_counterexample :
    getUniswapPositions ⟨true, .ok 1, fun _ => .error (), fun _ => .ok ()⟩ = [] ∧
    getUniswapPositions ⟨true, .ok 1, fun _ => .error (), fun _ => .ok ()⟩
        ≠ uniswapMockPositions ∧
    getAavePositions ⟨true, fun _ => .error ()⟩ = [] ∧
    getAavePositions ⟨true, fun _ => .error ()⟩ ≠ aaveMockPositions := by
  refine ⟨rfl, ?_, rfl, ?_⟩
  · show ([] : List DefiPosition) ≠ uniswapMockPositions
    simp [uniswapMockPositions]
  · show ([] : List DefiPosition) ≠ aaveMockPositions
    simp [aaveMockPositions]

/-- C3 amended: the fallback behaviour actually implemented is per-reader.
`getUniswapPositions` returns its static example exactly when the top-level
NFT-count query (`balanceOf`) fails; failures of the per-position detail
queries are skipped individually and can leave the result empty.
`getAavePositions` catches every per-asset failure inside its loop and
returns the (possibly empty) real list — its static-example catch is not
reachable from per-asset failures. `getCompoundPositions` returns its
static example whenever the collected list is empty, which includes the
case where every per-cToken query fails. -/
theorem positionReaders_fallback_amended
    (uo : UniswapOracle) (ao : AaveOracle) (co : CompoundOracle)
    (hup : uo.provider = true) (hub : uo.balanceOf = .error ())
    (hap : ao.provider = true)
    (haf : ∀ a ∈ aaveAssets, ao.getUserReserveData a.1 = .error ())
    (hcp : co.provider = true)
    (hcf : ∀ c ∈ compoundTokens, co.cTokenData c.1 = .error ()) :
    getUniswapPositions uo = uniswapMockPositions ∧
    getAavePositions ao = [] ∧
    getCompoundPositions co = compoundMockPositions := by
  refine ⟨?_, ?_, ?_⟩
  · simp [getUniswapPositions, hup, hub]
  · have h1 := haf ("0xC02aaA39b223FE8D0A0e5C4F27eAD9083C756Cc2", "WETH")
      (by simp [aaveAssets])
    have h2 := haf ("0xA0b86a33E6441b8C4C4C4C4C4C4C4C4C4C4C4C4C", "USDC")
      (by simp [aaveAssets])
    have h3 := haf ("0x6B175474E89094C44Da98b954EedeAC495271d0F", "DAI")
      (by simp [aaveAssets])
    simp [getAavePositions, hap, aaveAssets, h1, h2, h3]
  · have h1 := hcf ("0x4Ddc2D193948926D02f9B1fE9e1daa0718270ED5", "cETH", "ETH")
      (by simp [compoundTokens])
    have h2 := hcf ("0x39AA39c021dfbaE8faC545936693aC917d5E7563", "cUSDC", "USDC")
      (by simp [compoundTokens])
    have h3 := hcf ("0x5d3a536E4D6DbD6114cc1Ead35777bAB948E3643", "cDAI", "DAI")
      (by simp [compoundTokens])
    simp [getCompoundPositions, hcp, compoundTokens, h1, h2, h3]

theorem positionReaders_fallback_amended_witness :
    getUniswapPositions ⟨true, .error (), fun _ => .ok 0, fun _ => .ok ()⟩
        = uniswapMockPositions ∧
    getAavePositions ⟨true, fun _ => .error ()⟩ = [] ∧
    getCompoundPositions ⟨true, fun _ => .error ()⟩ = compoundMockPositions :=
  positionReaders_fallback_amended
    ⟨true, .error (), fun _ => .ok 0, fun _ => .ok ()⟩
    ⟨true, fun _ => .error ()⟩ ⟨true, fun _ => .error ()⟩
    rfl rfl rfl (fun _ _ => rfl) rfl (fun _ _ => rfl)

/-- The merge step's totals are the sums over its own lists. -/
theorem mergeSnapshot_totals (tokens : List TokenRow)
    (uni aavePos compPos : List DefiPosition) :
    (mergeSnapshot tokens uni aavePos compPos).totalValue
        = ((mergeSnapshot tokens uni aavePos compPos).tokens.map (·.value)).sum
          + ((mergeSnapshot tokens uni aavePos compPos).defiPositions.map (·.value)).sum ∧
    (mergeSnapshot tokens uni aavePos compPos).totalYield
        = ((mergeSnapshot tokens uni aavePos compPos).defiPositions.map
            (fun p => p.yield.getD 0)).sum := by
  constructor
  · show tokens.foldl (fun s t => s + t.value) 0
        + (uni ++ aavePos ++ compPos).foldl (fun s p => s + p.value) 0 = _
    rw [foldl_add_eq_sum (fun t => t.value) tokens 0,
        foldl_add_eq_sum (fun p => p.value) (uni ++ aavePos ++ compPos) 0]
    simp [mergeSnapshot]
  · show (uni ++ aavePos ++ compPos).foldl (fun s p => s + p.yield.getD 0) 0 = _
    rw [foldl_add_eq_sum (fun p => p.yield.getD 0) (uni ++ aavePos ++ compPos) 0]
    simp [mergeSnapshot]

/-- C1: for every snapshot produced by the aggregation merge step (i.e.
whenever `fetchRealData` succeeds), `totalValue` equals the sum of `value`
over the token-balance list plus the sum of `value` over the merged position
list, and `totalYield` equals the sum of `yield` over the merged position
list treating an absent yield as 0. In this exact-rational model the
equality is exact, which implies the spec's 1e-9 floating-point tolerance. -/
theorem aggregation_totals_invariant (o : AggOracle) (snap : PortfolioData)
    (h : fetchRealData o = (true, snap)) :
    snap.totalValue = (snap.tokens.map (·.value)).sum
        + (snap.defiPositions.map (·.value)).sum ∧
    snap.totalYield = (snap.defiPositions.map (fun p => p.yield.getD 0)).sum := by
  unfold fetchRealData at h
  cases hp : o.prices with
  | error e => rw [hp] at h; simp at h
  | ok prices =>
  rw [hp] at h
  cases he : o.ethBalance with
  | error e => rw [he] at h; simp at h
  | ok ethBal =>
  rw [he] at h
  cases hu : o.uniswap with
  | error e => rw [hu] at h; simp at h
  | ok uni =>
  rw [hu] at h
  cases ha : o.aave with
  | error e => rw [ha] at h; simp at h
  | ok aavePos =>
  rw [ha] at h
  cases hc : o.compound with
  | error e => rw [hc] at h; simp at h
  | ok compPos =>
  rw [hc] at h
  simp only [Prod.mk.injEq] at h
  rw [← h.2]
  exact mergeSnapshot_totals _ _ _ _

theorem aggregation_totals_invariant_witness :
    (mergeSnapshot (buildTokenRows fallbackPrices 2 (fun _ => .error ()))
        uniswapMockPositions aaveMockPositions compoundMockPositions).totalValue
      = ((mergeSnapshot (buildTokenRows fallbackPrices 2 (fun _ => .error ()))
            uniswapMockPositions aaveMockPositions
            compoundMockPositions).tokens.map (·.value)).sum
        + ((mergeSnapshot (buildTokenRows fallbackPrices 2 (fun _ => .error ()))
            uniswapMockPositions aaveMockPositions
            compoundMockPositions).defiPositions.map (·.value)).sum ∧
    (mergeSnapshot (buildTokenRows fallbackPrices 2 (fun _ => .error ()))
        uniswapMockPositions aaveMockPositions compoundMockPositions).totalYield
      = ((mergeSnapshot (buildTokenRows fallbackPrices 2 (fun _ => .error ()))
            uniswapMockPositions aaveMockPositions
            compoundMockPositions).defiPositions.map
              (fun p => p.yield.getD 0)).sum :=
  aggregation_totals_invariant
    ⟨.ok fallbackPrices, .ok 2, fun _ => .error (),
      .ok uniswapMockPositions, .ok aaveMockPositions,
      .ok compoundMockPositions⟩
    (mergeSnapshot (buildTokenRows fallbackPrices 2 (fun _ => .error ()))
      uniswapMockPositions aaveMockPositions compoundMockPositions)
    rfl

/-- C8: for every address (i.e. for every behaviour of the awaited
sub-calls), `fetchRealData` either reports failure and substitutes the
static demonstration snapshot, or succeeds with the fully merged snapshot
built from all five successfully-resolved sources; it never returns a
partially-filled snapshot labelled as a success. -/
theorem aggregation_all_or_nothing (o : AggOracle) :
    ((fetchRealData o).1 = false ∧ (fetchRealData o).2 = fetchMockData) ∨
    (∃ prices ethBal uni aavePos compPos,
      o.prices = .ok prices ∧ o.ethBalance = .ok ethBal ∧
      o.uniswap = .ok uni ∧ o.aave = .ok aavePos ∧ o.compound = .ok compPos ∧
      fetchRealData o = (true,
        mergeSnapshot (buildTokenRows prices ethBal o.tokenBalance)
          uni aavePos compPos)) := by
  cases hp : o.prices with
  | error e => left; simp [fetchRealData, hp]
  | ok prices =>
  cases he : o.ethBalance with
  | error e => left; simp [fetchRealData, hp, he]
  | ok ethBal =>
  cases hu : o.uniswap with
  | error e => left; simp [fetchRealData, hp, he, hu]
  | ok uni =>
  cases ha : o.aave with
  | error e => left; simp [fetchRealData, hp, he, hu, ha]
  | ok aavePos =>
  cases hc : o.compound with
  | error e => left; simp [fetchRealData, hp, he, hu, ha, hc]
  | ok compPos =>
  right
  refine ⟨prices, ethBal, uni, aavePos, compPos, ?_, ?_, ?_, ?_, ?_,
    by simp [fetchRealData, hp, he, hu, ha, hc]⟩ <;> simp [hp, he, hu, ha, hc]
